import Mathlib

/-!
Verification of `cello::ObjectList` (src/cello/cello_objectList.h).

The C++ class keeps a strongly typed collection `_objects` (a
`juce::OwnedArray<ObjectType>`) synchronized with the children of an observed
`juce::ValueTree` node.  We embed the class shallowly:

* a tree node is identified by a natural number (`Node`); the wrapper object
  created for a node is identified with that node (the factory
  `createNewObject` builds exactly one wrapper from one node, so a wrapper is
  determined by its node);
* the state of one list is a `ListState`: the observed node's ordered children
  and the ordered typed collection `_objects`;
* the polymorphic contract of derived classes (`isValidAsChild`,
  `createNewObject`) is a pair of boolean functions on nodes: `valid v` is the
  validity predicate, `create v` says whether the factory returns non-null
  (the wrapper it returns is `v` itself);
* side effects (extension hooks, destructions, tree removals, `jassertfalse`)
  are recorded in an `Event` trace in the order the C++ statements execute;
* the tree/notification collaborator (juce::ValueTree and the `cello::Object`
  base class in cello_object.h, which is not part of the sources under
  verification) is modelled from the spec: tree mutations are list operations
  on `children` that synchronously deliver the corresponding notification to
  the handlers, as the spec's External Interfaces and Concurrency sections
  describe.
-/

namespace Cello

/-- A tree node, identified by a natural number.  Wrapper objects are
identified with the node they wrap. -/
abbrev Node := Nat

/-- Observable side effects of the list, in the order the C++ code performs
them: extension hooks, detaching/destroying wrappers, removing tree children,
and assertion-style signals (`jassertfalse` / failed `jassert`). -/
inductive Event where
  | hookAdded (o : Node)
  | detached (o : Node)
  | hookRemoved (o : Node)
  | destroyed (o : Node)
  | hookOrderChanged (oldIndex newIndex : Int)
  | treeRemovedAt (index : Int)
  | assertionFailed
deriving DecidableEq, Repr

/-- State of one `ObjectList`: the children of the observed tree node, in tree
order, and the typed collection `_objects`, in collection order. -/
structure ListState where
  children : List Node
  objects : List Node
deriving DecidableEq, Repr

/-- `juce::ValueTree::indexOf(child)` as used through the `Object` base:
index of `v` among `children`, or `-1` when `v` is not a child. -/
def indexOf (children : List Node) (v : Node) : Int :=
  match children.findIdx? (· == v) with
  | some i => (i : Int)
  | none => -1

/-- `juce::Array::indexOf` on the typed collection (`_objects.indexOf(obj)`):
index of the wrapper, or `-1` when it is not in the collection. -/
def arrayIndexOf (objects : List Node) (obj : Node) : Int :=
  match objects.findIdx? (· == obj) with
  | some i => (i : Int)
  | none => -1

/-- `ObjectList::compareElements(first, second)` (lines 422-427): difference
of the two wrappers' tree-child indexes. -/
def compareElements (children : List Node) (first second : Node) : Int :=
  indexOf children first - indexOf children second

/-- `ObjectList::objectCount()` (lines 144-147). -/
def objectCount (s : ListState) : Nat :=
  s.objects.length

/-- `ObjectList::getObject(index)` (lines 155-164).  Out of range: triggers
`jassertfalse` (second component `true`) and returns null; in range: returns
the wrapper at `index`, no signal. -/
def getObject (objects : List Node) (index : Int) : Option Node × Bool :=
  if index < 0 ∨ (objects.length : Int) ≤ index then (none, true)
  else (objects[index.toNat]?, false)

/-- `ObjectList::isChildTree(v)` (lines 309-312): `isValidAsChild(v) &&
v.getParent() == *this`.  A node's parent is this node exactly when it occurs
among this node's children. -/
def isChildTree (valid : Node → Bool) (s : ListState) (v : Node) : Bool :=
  valid v && s.children.contains v

/-- `juce::Array::addSorted` as used by the child-added handler: inserts the
new element at the position the comparator determines, i.e. before the first
element the new one compares strictly below (for an array that is sorted by
the comparator, which juce requires, this is the binary-search insert
position; equal elements are passed over). -/
def addSorted (children : List Node) (objects : List Node) (newObject : Node) : List Node :=
  match objects with
  | [] => [newObject]
  | o :: rest =>
      if compareElements children newObject o < 0 then newObject :: o :: rest
      else o :: addSorted children rest newObject

/-- Insertion step for `sortObjects`. -/
def insertByTree (children : List Node) (x : Node) : List Node → List Node
  | [] => [x]
  | y :: t => if compareElements children x y ≤ 0 then x :: y :: t else y :: insertByTree children x t

/-- `_objects.sort(*this)` in the order-changed handler: sorts the collection
by the `compareElements` comparator (insertion sort; juce guarantees the
result is ordered by the comparator). -/
def sortObjects (children : List Node) : List Node → List Node
  | [] => []
  | x :: t => insertByTree children x (sortObjects children t)

/-- `ObjectList::valueTreeChildAdded` (lines 346-368), acting on the state
after the tree already contains the new child.  Returns the new `_objects`
and the emitted events.  The `Object` base handler (cello_object.h, external
to the verified sources) does not touch the typed collection. -/
def valueTreeChildAdded (valid create : Node → Bool) (s : ListState) (childTree : Node) :
    List Node × List Event :=
  if !isChildTree valid s childTree then (s.objects, [])
  else if create childTree then
    ((if indexOf s.children childTree = (s.children.length : Int) - 1
      then s.objects ++ [childTree]
      else addSorted s.children s.objects childTree),
     (if indexOf s.children childTree < 0 then [Event.assertionFailed] else [])
       ++ [Event.hookAdded childTree])
  else (s.objects,
    (if indexOf s.children childTree < 0 then [Event.assertionFailed] else [])
      ++ [Event.assertionFailed])

/-- `ObjectList::valueTreeChildRemoved` (lines 377-391), acting on the state
after the child has already left the tree.  `parentIsSelf` says whether the
removal happened directly under this node (`parentTree == *this`); `index` is
the index the removed child used to occupy.  On a hit the wrapper is detached
(`removeObject(o, false)`), the hook runs, then the wrapper is deleted; on an
out-of-range index `getObject` raises `jassertfalse` and nothing changes. -/
def valueTreeChildRemoved (s : ListState) (parentIsSelf : Bool) (index : Int) :
    List Node × List Event :=
  if !parentIsSelf then (s.objects, [])
  else
    match getObject s.objects index with
    | (some o, _) => (s.objects.erase o, [Event.detached o, Event.hookRemoved o, Event.destroyed o])
    | (none, asserted) => (s.objects, if asserted then [Event.assertionFailed] else [])

/-- `ObjectList::valueTreeChildOrderChanged` (lines 400-409): ignored unless
the delivered node's parent is this node (`childTree.getParent() == *this`,
i.e. the node occurs among this node's children); otherwise re-sorts the
collection with the comparator and fires the order-changed hook. -/
def valueTreeChildOrderChanged (s : ListState) (childTree : Node) (oldIndex newIndex : Int) :
    List Node × List Event :=
  if !s.children.contains childTree then (s.objects, [])
  else (sortObjects s.children s.objects, [Event.hookOrderChanged oldIndex newIndex])

/-! ### Tree collaborator drivers

Modelled from the spec: the tree/notification mechanism (juce::ValueTree
routed through the `Object` base in cello_object.h, which is not among the
verified sources) performs the tree mutation and synchronously delivers the
corresponding notification to this node, per spec sections 5 and 6. -/

/-- Modelled from the spec: the collaborator appends `v` to the observed
node's children and synchronously delivers child-added(parentNode=this,
childNode=v). -/
def externAppendChild (valid create : Node → Bool) (s : ListState) (v : Node) :
    ListState × List Event :=
  let s' : ListState := ⟨s.children ++ [v], s.objects⟩
  let r := valueTreeChildAdded valid create s' v
  (⟨s'.children, r.1⟩, r.2)

/-- Modelled from the spec: the collaborator inserts `v` at position `pos`
among the observed node's children and synchronously delivers
child-added(parentNode=this, childNode=v). -/
def externInsertChild (valid create : Node → Bool) (s : ListState) (pos : Nat) (v : Node) :
    ListState × List Event :=
  let s' : ListState := ⟨s.children.insertIdx pos v, s.objects⟩
  let r := valueTreeChildAdded valid create s' v
  (⟨s'.children, r.1⟩, r.2)

/-- `ObjectList::removeObject(obj)` (lines 166-170): asks the tree to remove
the wrapper's node (`parent.removeChild(*obj, um)`).  Modelled from the spec:
if the node is a child it is removed and child-removed(parentNode=this,
childNode, index) is delivered synchronously; otherwise nothing happens. -/
def removeObject (s : ListState) (obj : Node) : ListState × List Event :=
  match s.children.findIdx? (· == obj) with
  | none => (s, [])
  | some i =>
      let s' : ListState := ⟨s.children.eraseIdx i, s.objects⟩
      let r := valueTreeChildRemoved s' true (i : Int)
      (⟨s'.children, r.1⟩, Event.treeRemovedAt (i : Int) :: r.2)

/-- `Object::remove(i)` as invoked by `rebuildObjects`.  Modelled from the
spec: remove-child-at-index on the underlying tree; when `i` is a valid child
index the child is removed and child-removed(parentNode=this, childNode,
index=i) is delivered synchronously, otherwise nothing happens. -/
def removeChildAt (s : ListState) (i : Int) : ListState × List Event :=
  if i < 0 then (s, [])
  else
    match s.children[i.toNat]? with
    | none => (s, [])
    | some _ =>
        let s' : ListState := ⟨s.children.eraseIdx i.toNat, s.objects⟩
        let r := valueTreeChildRemoved s' true i
        (⟨s'.children, r.1⟩, Event.treeRemovedAt i :: r.2)

/-- Modelled from the spec: `juce::ValueTree::moveChild(oldIndex, newIndex,
um)` reorders the children (remove at `oldIndex`, re-insert so the moved
child ends at `newIndex`, clamped to the valid range) and synchronously
delivers child-order-changed carrying the reordered node and the two
indexes (spec section 6: child-order-changed(node, oldIndex, newIndex)). -/
def moveChild (s : ListState) (oldIndex newIndex : Int) : ListState × List Event :=
  if oldIndex < 0 then (s, [])
  else
    match s.children[oldIndex.toNat]? with
    | none => (s, [])
    | some m =>
        let removed := s.children.eraseIdx oldIndex.toNat
        let pos := if newIndex < 0 ∨ (s.children.length : Int) ≤ newIndex
                   then removed.length else newIndex.toNat
        let children' := removed.insertIdx pos m
        let r := valueTreeChildOrderChanged ⟨children', s.objects⟩ m oldIndex newIndex
        (⟨children', r.1⟩, r.2)

/-- `ObjectList::move(oldIndex, newIndex)` (lines 188-202): silent no-op when
either index is outside `[0, _objects.size())` or the indexes are equal;
otherwise asks the tree to move the child. -/
def move (s : ListState) (oldIndex newIndex : Int) : ListState × List Event :=
  if oldIndex < 0 ∨ (objectCount s : Int) ≤ oldIndex then (s, [])
  else if newIndex < 0 ∨ (objectCount s : Int) ≤ newIndex then (s, [])
  else if oldIndex = newIndex then (s, [])
  else moveChild s oldIndex newIndex

/-- `ObjectList::moveUp(index)` (lines 204-210). -/
def moveUp (s : ListState) (index : Int) : ListState × List Event :=
  if index < 1 ∨ (objectCount s : Int) ≤ index then (s, [])
  else move s index (index - 1)

/-- `ObjectList::moveDown(index)` (lines 212-218). -/
def moveDown (s : ListState) (index : Int) : ListState × List Event :=
  if index < 0 ∨ (objectCount s : Int) - 1 ≤ index then (s, [])
  else move s index (index + 1)

/-- `ObjectList::moveUp(ObjectType*)` (lines 220-223): resolves the index by
identity lookup in the typed collection, then `moveUp(index)`. -/
def moveUpObj (s : ListState) (obj : Node) : ListState × List Event :=
  moveUp s (arrayIndexOf s.objects obj)

/-- `ObjectList::moveDown(ObjectType*)` (lines 225-228). -/
def moveDownObj (s : ListState) (obj : Node) : ListState × List Event :=
  moveDown s (arrayIndexOf s.objects obj)

/-- The loop body of `ObjectList::clear()` (lines 133-137): while the
collection is non-empty, `removeObject(getObject(0))`.  The C++ loop is
unbounded; here it is bounded by a fuel counter, which suffices whenever each
removal notification shrinks the collection by one (when a removal fails to
shrink the collection the C++ loop never terminates). -/
def clearSteps : Nat → ListState → ListState × List Event
  | 0, s => (s, [])
  | fuel + 1, s =>
      match s.objects with
      | [] => (s, [])
      | o :: _ =>
          let r := removeObject s o
          let r' := clearSteps fuel r.1
          (r'.1, r.2 ++ r'.2)

/-- `ObjectList::clear()` (lines 133-137), with fuel equal to the collection
size (exactly the number of iterations of the C++ loop when every removal
shrinks the collection by one). -/
def clear (s : ListState) : ListState × List Event :=
  clearSteps s.objects.length s

/-- `ObjectList::freeObjects()` (lines 298-301): `_objects.clear()` on the
`juce::OwnedArray` deletes every owned wrapper and empties the array; the
tree is not touched and no extension hook runs. -/
def freeObjects (s : ListState) : ListState × List Event :=
  (⟨s.children, []⟩, s.objects.map Event.destroyed)

/-- The `jassert(_objects.size() == 0)` in `~ObjectList` (lines 124-127):
destroying a list whose collection is non-empty raises the precondition
signal. -/
def destructorAsserts (s : ListState) : Bool :=
  !s.objects.isEmpty

/-! ### rebuildObjects -/

/-- The scan loop of `rebuildObjects` (lines 262-279), processing the given
suffix of the children of `children`: appends a wrapper for each child that
passes `isValidAsChild` and for which `createNewObject` returns non-null, and
records `indexOf(v)` for every other child. -/
def rebuildScanAux (valid create : Node → Bool) (children : List Node) :
    List Node → List Node × List Int
  | [] => ([], [])
  | v :: rest =>
      let r := rebuildScanAux valid create children rest
      if valid v && create v then (v :: r.1, r.2)
      else (r.1, indexOf children v :: r.2)

/-- The scan phase of `rebuildObjects`: the wrappers appended (in order) and
the recorded invalid-child indexes (in scan order). -/
def rebuildScan (valid create : Node → Bool) (children : List Node) : List Node × List Int :=
  rebuildScanAux valid create children children

/-- Insertion step of `sortDesc`. -/
def insertDesc (x : Int) : List Int → List Int
  | [] => [x]
  | y :: t => if y ≤ x then x :: y :: t else y :: insertDesc x t

/-- `std::sort(begin, end, std::greater<>())` on the recorded indexes (line
284): sorts into non-increasing order (insertion sort). -/
def sortDesc : List Int → List Int
  | [] => []
  | x :: t => insertDesc x (sortDesc t)

/-- The deletion loop of `rebuildObjects` (lines 285-288): `remove(i)` for
each recorded index in the given order, accumulating the events. -/
def removeRecorded (s : ListState) (idxs : List Int) : ListState × List Event :=
  idxs.foldl
    (fun acc i => ((removeChildAt acc.1 i).1, acc.2 ++ (removeChildAt acc.1 i).2)) (s, [])

/-- Children-only projection of the deletion loop: the tree children left
after performing the index removals of `removeChildAt` in order (the typed
collection plays no role in how the tree evolves). -/
def childrenAfter (l : List Node) : List Int → List Node
  | [] => l
  | i :: rest =>
      if i < 0 then childrenAfter l rest
      else
        match l[i.toNat]? with
        | none => childrenAfter l rest
        | some _ => childrenAfter (l.eraseIdx i.toNat) rest

/-- The indexes at which the deletion loop actually removes a tree child, in
removal order. -/
def hitIdxs (l : List Node) : List Int → List Int
  | [] => []
  | i :: rest =>
      if i < 0 then hitIdxs l rest
      else
        match l[i.toNat]? with
        | none => hitIdxs l rest
        | some _ => i :: hitIdxs (l.eraseIdx i.toNat) rest

/-- Result of `rebuildObjects`: the final state, the event trace, and whether
the entry `jassert(_objects.size() == 0)` precondition was violated. -/
structure RebuildResult where
  state : ListState
  events : List Event
  precondViolated : Bool
deriving DecidableEq, Repr

/-- `ObjectList::rebuildObjects(deleteInvalidChildren)` (lines 258-290):
checks the call-once precondition, clears `_objects` (destroying any existing
wrappers), scans the children appending wrappers and recording invalid
indexes, and, when `deleteInvalidChildren` is set, removes the recorded
indexes from the tree in descending order (each removal delivering its
child-removed notification synchronously). -/
def rebuildObjects (valid create : Node → Bool) (s : ListState)
    (deleteInvalidChildren : Bool) : RebuildResult :=
  if deleteInvalidChildren then
    ⟨(removeRecorded ⟨s.children, (rebuildScan valid create s.children).1⟩
        (sortDesc (rebuildScan valid create s.children).2)).1,
     s.objects.map Event.destroyed
       ++ (removeRecorded ⟨s.children, (rebuildScan valid create s.children).1⟩
            (sortDesc (rebuildScan valid create s.children).2)).2,
     !s.objects.isEmpty⟩
  else
    ⟨⟨s.children, (rebuildScan valid create s.children).1⟩,
     s.objects.map Event.destroyed, !s.objects.isEmpty⟩

/-- The indexes of the tree removals in an event trace, in order. -/
def removalIdxs (evs : List Event) : List Int :=
  evs.filterMap fun e =>
    match e with
    | Event.treeRemovedAt i => some i
    | _ => none

/-- Positions (tree indexes) of the children of `l` that fail `keep`, in
ascending order: the indexes `rebuildObjects` records when the tree has no
duplicate nodes. -/
def badPositions (keep : Node → Bool) : List Node → List Nat
  | [] => []
  | c :: rest =>
      if keep c then (badPositions keep rest).map (· + 1)
      else 0 :: (badPositions keep rest).map (· + 1)

/-- The typed collection is sorted by the tree-index comparator. -/
def SortedByTree (children : List Node) (l : List Node) : Prop :=
  l.Pairwise (fun a b => compareElements children a b < 0)

/-! ### Helper lemmas about `indexOf` -/

theorem findIdx?_beq_of_not_mem {l : List Node} {v : Node} (h : v ∉ l) :
    l.findIdx? (· == v) = none := by
  rw [List.findIdx?_eq_none_iff]
  intro x hx
  simp only [beq_eq_false_iff_ne, ne_eq]
  rintro rfl
  exact h hx

theorem indexOf_of_not_mem {l : List Node} {v : Node} (h : v ∉ l) : indexOf l v = -1 := by
  unfold indexOf
  rw [findIdx?_beq_of_not_mem h]

theorem arrayIndexOf_of_not_mem {l : List Node} {v : Node} (h : v ∉ l) :
    arrayIndexOf l v = -1 := by
  unfold arrayIndexOf
  rw [findIdx?_beq_of_not_mem h]

theorem indexOf_spec_of_mem {l : List Node} {v : Node} (h : v ∈ l) :
    0 ≤ indexOf l v ∧ (indexOf l v) < (l.length : Int) ∧ l[(indexOf l v).toNat]? = some v := by
  match hf : l.findIdx? (· == v) with
  | none =>
      rw [List.findIdx?_eq_none_iff] at hf
      have := hf v h
      simp at this
  | some i =>
      have hIdx : indexOf l v = (i : Int) := by unfold indexOf; rw [hf]
      rw [List.findIdx?_eq_some_iff_getElem] at hf
      obtain ⟨hi, hpi, _⟩ := hf
      have hv : l[i] = v := by simpa using hpi
      refine ⟨by omega, by rw [hIdx]; exact_mod_cast hi, ?_⟩
      rw [hIdx]
      simp only [Int.toNat_ofNat]
      rw [List.getElem?_eq_getElem hi, hv]

theorem indexOf_inj {l : List Node} {a b : Node} (ha : a ∈ l) (hb : b ∈ l)
    (h : indexOf l a = indexOf l b) : a = b := by
  have sa := (indexOf_spec_of_mem ha).2.2
  have sb := (indexOf_spec_of_mem hb).2.2
  rw [h] at sa
  exact Option.some.inj (sa.symm.trans sb)

theorem indexOf_append_cons {pre : List Node} {v : Node} (rest : List Node) (h : v ∉ pre) :
    indexOf (pre ++ v :: rest) v = (pre.length : Int) := by
  unfold indexOf
  rw [List.findIdx?_append, findIdx?_beq_of_not_mem h]
  simp

theorem cmp_ne_zero_of_mem_ne {children : List Node} {v o : Node} (hv : v ∈ children)
    (hne : o ≠ v) : compareElements children v o ≠ 0 := by
  by_cases ho : o ∈ children
  · intro h0
    exact hne (indexOf_inj ho hv (by unfold compareElements at h0; omega))
  · have h1 := indexOf_of_not_mem ho
    have h2 := (indexOf_spec_of_mem hv).1
    unfold compareElements
    omega

theorem addSorted_perm (children : List Node) (v : Node) :
    ∀ l : List Node, (addSorted children l v).Perm (v :: l) := by
  intro l
  induction l with
  | nil => exact List.Perm.refl _
  | cons o rest ih =>
      unfold addSorted
      split_ifs with hcmp
      · exact List.Perm.refl _
      · exact (ih.cons o).trans (List.Perm.swap v o rest)

theorem addSorted_sorted {children l : List Node} {v : Node} (hv : v ∈ children)
    (hvl : v ∉ l) (hs : SortedByTree children l) :
    SortedByTree children (addSorted children l v) := by
  induction l with
  | nil =>
      unfold addSorted SortedByTree
      exact List.pairwise_singleton _ _
  | cons o rest ih =>
      rw [SortedByTree, List.pairwise_cons] at hs
      obtain ⟨ho, hrest⟩ := hs
      have hneov : o ≠ v := fun he => hvl (he ▸ List.mem_cons_self o rest)
      unfold addSorted
      split_ifs with hcmp
      · rw [SortedByTree, List.pairwise_cons]
        refine ⟨?_, List.pairwise_cons.mpr ⟨ho, hrest⟩⟩
        intro b hb
        rcases List.mem_cons.mp hb with rfl | hb
        · exact hcmp
        · have := ho b hb
          unfold compareElements at *
          omega
      · have hvo : 0 < compareElements children v o := by
          have hne0 := cmp_ne_zero_of_mem_ne hv hneov
          omega
        rw [SortedByTree, List.pairwise_cons]
        constructor
        · intro b hb
          rcases List.mem_cons.mp ((addSorted_perm children v rest).mem_iff.mp hb) with rfl | hb'
          · unfold compareElements at *
            omega
          · exact ho b hb'
        · exact ih (fun h => hvl (List.mem_cons_of_mem o h)) hrest

theorem clearSteps_mirror : ∀ l : List Node, (clearSteps l.length ⟨l, l⟩).1 = ⟨[], []⟩ := by
  intro l
  induction l with
  | nil => rfl
  | cons o t ih =>
      have hfind : (o :: t).findIdx? (· == o) = some 0 := by
        rw [List.findIdx?_cons]
        simp
      have hget : getObject (o :: t) ((0 : Nat) : Int) = (some o, false) := by
        unfold getObject
        rw [if_neg (by simp)]
        simp
      have hrem : (valueTreeChildRemoved ⟨t, o :: t⟩ true ((0 : Nat) : Int)).1 = t := by
        unfold valueTreeChildRemoved
        rw [hget]
        show (o :: t).erase o = t
        exact List.erase_cons_head o t
      have hro : (removeObject ⟨o :: t, o :: t⟩ o).1 = ⟨t, t⟩ := by
        unfold removeObject
        rw [hfind]
        show (⟨t, (valueTreeChildRemoved ⟨t, o :: t⟩ true ((0 : Nat) : Int)).1⟩ : ListState)
          = ⟨t, t⟩
        rw [hrem]
      show (clearSteps t.length (removeObject ⟨o :: t, o :: t⟩ o).1).1 = ⟨[], []⟩
      rw [hro]
      exact ih

/-! ### Lemmas for rebuildObjects -/

theorem badPositions_pairwise (keep : Node → Bool) :
    ∀ l : List Node, (badPositions keep l).Pairwise (· < ·) := by
  intro l
  induction l with
  | nil => exact List.Pairwise.nil
  | cons c t ih =>
      unfold badPositions
      have hmap : ((badPositions keep t).map (· + 1)).Pairwise (· < ·) :=
        List.pairwise_map.mpr (ih.imp (by omega))
      split_ifs with hk
      · exact hmap
      · refine List.pairwise_cons.mpr ⟨?_, hmap⟩
        intro b hb
        obtain ⟨n, _, rfl⟩ := List.mem_map.mp hb
        omega

theorem insertDesc_of_lt {x : Int} : ∀ {l : List Int}, (∀ y ∈ l, x < y) →
    insertDesc x l = l ++ [x] := by
  intro l
  induction l with
  | nil => intro _; rfl
  | cons y t ih =>
      intro h
      unfold insertDesc
      rw [if_neg (by have := h y (List.mem_cons_self y t); omega)]
      rw [ih (fun z hz => h z (List.mem_cons_of_mem y hz))]
      rfl

theorem sortDesc_of_ascending : ∀ {l : List Int}, l.Pairwise (· < ·) →
    sortDesc l = l.reverse := by
  intro l
  induction l with
  | nil => intro _; rfl
  | cons x t ih =>
      intro h
      obtain ⟨hx, ht⟩ := List.pairwise_cons.mp h
      unfold sortDesc
      rw [ih ht, insertDesc_of_lt (fun y hy => hx y (List.mem_reverse.mp hy)),
        List.reverse_cons]

theorem removalIdxs_append (a b : List Event) :
    removalIdxs (a ++ b) = removalIdxs a ++ removalIdxs b := by
  unfold removalIdxs
  exact List.filterMap_append a b _

theorem removalIdxs_handler (s : ListState) (b : Bool) (idx : Int) :
    removalIdxs (valueTreeChildRemoved s b idx).2 = [] := by
  unfold valueTreeChildRemoved
  cases b
  · rfl
  · rcases hg : getObject s.objects idx with ⟨o, a⟩
    cases o
    · cases a <;> rfl
    · rfl

theorem removeRecorded_acc : ∀ (idxs : List Int) (st : ListState) (evs : List Event),
    idxs.foldl
        (fun acc i => ((removeChildAt acc.1 i).1, acc.2 ++ (removeChildAt acc.1 i).2))
        (st, evs)
      = ((removeRecorded st idxs).1, evs ++ (removeRecorded st idxs).2) := by
  intro idxs
  induction idxs with
  | nil =>
      intro st evs
      simp [removeRecorded]
  | cons j rest ih =>
      intro st evs
      rw [List.foldl_cons, ih]
      have h2 : removeRecorded st (j :: rest)
          = ((removeRecorded (removeChildAt st j).1 rest).1,
             (removeChildAt st j).2 ++ (removeRecorded (removeChildAt st j).1 rest).2) := by
        unfold removeRecorded
        rw [List.foldl_cons]
        exact ih (removeChildAt st j).1 (removeChildAt st j).2
      rw [h2]
      simp [List.append_assoc]

theorem removeRecorded_cons_eq (s : ListState) (i : Int) (rest : List Int) :
    removeRecorded s (i :: rest)
      = ((removeRecorded (removeChildAt s i).1 rest).1,
         (removeChildAt s i).2 ++ (removeRecorded (removeChildAt s i).1 rest).2) := by
  unfold removeRecorded
  rw [List.foldl_cons]
  exact removeRecorded_acc rest (removeChildAt s i).1 (removeChildAt s i).2

theorem removalIdxs_cons_tree (i : Int) (evs : List Event) :
    removalIdxs (Event.treeRemovedAt i :: evs) = i :: removalIdxs evs := rfl

theorem removeRecorded_children_events : ∀ (idxs : List Int) (s : ListState),
    (removeRecorded s idxs).1.children = childrenAfter s.children idxs ∧
    removalIdxs (removeRecorded s idxs).2 = hitIdxs s.children idxs := by
  intro idxs
  induction idxs with
  | nil => intro s; exact ⟨rfl, rfl⟩
  | cons i rest ih =>
      intro s
      rw [removeRecorded_cons_eq]
      unfold childrenAfter hitIdxs
      by_cases hi : i < 0
      · have h1 : (removeChildAt s i).1 = s := by
          unfold removeChildAt
          rw [if_pos hi]
        have h2 : (removeChildAt s i).2 = [] := by
          unfold removeChildAt
          rw [if_pos hi]
        rw [h1, h2, if_pos hi, if_pos hi]
        have h := ih s
        exact ⟨h.1, by simpa using h.2⟩
      · rw [if_neg hi, if_neg hi]
        cases hg : s.children[i.toNat]? with
        | none =>
            have h1 : (removeChildAt s i).1 = s := by
              unfold removeChildAt
              rw [if_neg hi, hg]
            have h2 : (removeChildAt s i).2 = [] := by
              unfold removeChildAt
              rw [if_neg hi, hg]
            rw [h1, h2]
            have h := ih s
            exact ⟨h.1, by simpa using h.2⟩
        | some c =>
            have h1 : (removeChildAt s i).1
                = ⟨s.children.eraseIdx i.toNat,
                   (valueTreeChildRemoved ⟨s.children.eraseIdx i.toNat, s.objects⟩
                     true i).1⟩ := by
              unfold removeChildAt
              rw [if_neg hi, hg]
            have h2 : (removeChildAt s i).2
                = Event.treeRemovedAt i
                    :: (valueTreeChildRemoved ⟨s.children.eraseIdx i.toNat, s.objects⟩
                         true i).2 := by
              unfold removeChildAt
              rw [if_neg hi, hg]
            rw [h1, h2]
            have h := ih (⟨s.children.eraseIdx i.toNat,
              (valueTreeChildRemoved ⟨s.children.eraseIdx i.toNat, s.objects⟩ true i).1⟩ :
              ListState)
            refine ⟨h.1, ?_⟩
            rw [removalIdxs_append, removalIdxs_cons_tree, removalIdxs_handler]
            simpa using h.2

theorem childrenAfter_shift :
    ∀ (ps : List Nat) (c : Node) (t : List Node),
    childrenAfter (c :: t) (ps.map (fun n : Nat => (n : Int) + 1))
      = c :: childrenAfter t (ps.map (fun n : Nat => (n : Int))) ∧
    hitIdxs (c :: t) (ps.map (fun n : Nat => (n : Int) + 1))
      = (hitIdxs t (ps.map (fun n : Nat => (n : Int)))).map (· + 1) := by
  intro ps
  induction ps with
  | nil => intro c t; exact ⟨rfl, rfl⟩
  | cons j ps ih =>
      intro c t
      rw [List.map_cons, List.map_cons]
      have hne1 : ¬((j : Int) + 1 < 0) := by omega
      have hne0 : ¬((j : Int) < 0) := by omega
      have ht1 : ((j : Int) + 1).toNat = j + 1 := by omega
      have ht0 : ((j : Int)).toNat = j := by omega
      unfold childrenAfter hitIdxs
      simp only [if_neg hne1, if_neg hne0, ht1, ht0, List.getElem?_cons_succ]
      cases hjt : t[j]? with
      | none => exact ih c t
      | some x =>
          simp only [List.eraseIdx_cons_succ]
          have h := ih c (t.eraseIdx j)
          refine ⟨h.1, ?_⟩
          rw [List.map_cons, h.2]

theorem childrenAfter_cons (l : List Node) (i : Int) (rest : List Int) :
    childrenAfter l (i :: rest)
      = if i < 0 then childrenAfter l rest
        else
          match l[i.toNat]? with
          | none => childrenAfter l rest
          | some _ => childrenAfter (l.eraseIdx i.toNat) rest := rfl

theorem hitIdxs_cons (l : List Node) (i : Int) (rest : List Int) :
    hitIdxs l (i :: rest)
      = if i < 0 then hitIdxs l rest
        else
          match l[i.toNat]? with
          | none => hitIdxs l rest
          | some _ => i :: hitIdxs (l.eraseIdx i.toNat) rest := rfl

theorem childrenAfter_append : ∀ (xs ys : List Int) (l : List Node),
    childrenAfter l (xs ++ ys) = childrenAfter (childrenAfter l xs) ys ∧
    hitIdxs l (xs ++ ys) = hitIdxs l xs ++ hitIdxs (childrenAfter l xs) ys := by
  intro xs
  induction xs with
  | nil => intro ys l; exact ⟨rfl, rfl⟩
  | cons i xs ih =>
      intro ys l
      rw [List.cons_append, childrenAfter_cons, childrenAfter_cons, hitIdxs_cons,
        hitIdxs_cons]
      by_cases hi : i < 0
      · simp only [if_pos hi]
        exact ih ys l
      · simp only [if_neg hi]
        cases hg : l[i.toNat]? with
        | none => exact ih ys l
        | some c =>
            have h := ih ys (l.eraseIdx i.toNat)
            exact ⟨h.1, by rw [h.2, List.cons_append]⟩

theorem map_cast_add_one (B : List Nat) :
    (B.map (fun n : Nat => (n : Int))).map (· + 1)
      = B.map (fun n : Nat => (n : Int) + 1) := by
  rw [List.map_map]
  rfl

theorem map_add_one_cast (B : List Nat) :
    (B.map (fun n : Nat => n + 1)).map (fun n : Nat => (n : Int))
      = B.map (fun n : Nat => (n : Int) + 1) := by
  rw [List.map_map]
  apply List.map_congr_left
  intro a _
  rfl

theorem childrenAfter_badPositions (keep : Node → Bool) :
    ∀ l : List Node,
    childrenAfter l (((badPositions keep l).map (fun n : Nat => (n : Int))).reverse)
      = l.filter keep ∧
    hitIdxs l (((badPositions keep l).map (fun n : Nat => (n : Int))).reverse)
      = ((badPositions keep l).map (fun n : Nat => (n : Int))).reverse := by
  intro l
  induction l with
  | nil => exact ⟨rfl, rfl⟩
  | cons c t ih =>
      have hs := childrenAfter_shift ((badPositions keep t).reverse) c t
      have hrev : ((badPositions keep t).reverse).map (fun n : Nat => (n : Int))
          = ((badPositions keep t).map (fun n : Nat => (n : Int))).reverse :=
        List.map_reverse _ _
      have hshift1 : childrenAfter (c :: t)
            (((badPositions keep t).reverse).map (fun n : Nat => (n : Int) + 1))
          = c :: t.filter keep := by
        rw [hs.1, hrev, ih.1]
      have hshift2 : hitIdxs (c :: t)
            (((badPositions keep t).reverse).map (fun n : Nat => (n : Int) + 1))
          = ((badPositions keep t).reverse).map (fun n : Nat => (n : Int) + 1) := by
        rw [hs.2, hrev, ih.2, ← hrev, map_cast_add_one]
      have hbcons : badPositions keep (c :: t)
          = if keep c then (badPositions keep t).map (· + 1)
            else 0 :: (badPositions keep t).map (· + 1) := rfl
      by_cases hk : keep c = true
      · have hb : badPositions keep (c :: t) = (badPositions keep t).map (· + 1) := by
          rw [hbcons, if_pos hk]
        have hlist : ((badPositions keep (c :: t)).map (fun n : Nat => (n : Int))).reverse
            = ((badPositions keep t).reverse).map (fun n : Nat => (n : Int) + 1) := by
          rw [hb, map_add_one_cast, ← List.map_reverse]
        rw [hlist, List.filter_cons_of_pos hk]
        exact ⟨hshift1, hshift2⟩
      · have hkf : keep c = false := by simpa using hk
        have hb : badPositions keep (c :: t)
            = 0 :: (badPositions keep t).map (· + 1) := by
          rw [hbcons, if_neg hk]
        have hlist : ((badPositions keep (c :: t)).map (fun n : Nat => (n : Int))).reverse
            = ((badPositions keep t).reverse).map (fun n : Nat => (n : Int) + 1)
                ++ [((0 : Nat) : Int)] := by
          rw [hb, List.map_cons, List.reverse_cons, map_add_one_cast, ← List.map_reverse]
      -- the zero-index step on the state c :: t.filter keep
        have hzero_c : childrenAfter (c :: t.filter keep) [((0 : Nat) : Int)]
            = t.filter keep := by
          rw [childrenAfter_cons, if_neg (by omega)]
          have h0 : (((0 : Nat) : Int)).toNat = 0 := by omega
          rw [h0, List.getElem?_cons_zero]
          rfl
        have hzero_h : hitIdxs (c :: t.filter keep) [((0 : Nat) : Int)]
            = [((0 : Nat) : Int)] := by
          rw [hitIdxs_cons, if_neg (by omega)]
          have h0 : (((0 : Nat) : Int)).toNat = 0 := by omega
          rw [h0, List.getElem?_cons_zero]
          rfl
        have happ := childrenAfter_append
          (((badPositions keep t).reverse).map (fun n : Nat => (n : Int) + 1))
          [((0 : Nat) : Int)] (c :: t)
        rw [hlist, List.filter_cons_of_neg (by simp [hkf])]
        constructor
        · rw [happ.1, hshift1, hzero_c]
        · rw [happ.2, hshift1, hshift2, hzero_h]

theorem rebuildScanAux_spec (valid create : Node → Bool) :
    ∀ (rest pre : List Node), (pre ++ rest).Nodup →
    rebuildScanAux valid create (pre ++ rest) rest
      = (rest.filter (fun v => valid v && create v),
         (badPositions (fun v => valid v && create v) rest).map
           (fun n : Nat => ((pre.length + n : Nat) : Int))) := by
  intro rest
  induction rest with
  | nil => intro pre _; rfl
  | cons v rest ih =>
      intro pre hnd
      have hnd' : ((pre ++ [v]) ++ rest).Nodup := by
        simpa [List.append_assoc] using hnd
      have hrec := ih (pre ++ [v]) hnd'
      have hch : (pre ++ [v]) ++ rest = pre ++ v :: rest := by simp
      rw [hch] at hrec
      have hsa : rebuildScanAux valid create (pre ++ v :: rest) (v :: rest)
          = (if valid v && create v
             then (v :: (rebuildScanAux valid create (pre ++ v :: rest) rest).1,
                   (rebuildScanAux valid create (pre ++ v :: rest) rest).2)
             else ((rebuildScanAux valid create (pre ++ v :: rest) rest).1,
                   indexOf (pre ++ v :: rest) v
                     :: (rebuildScanAux valid create (pre ++ v :: rest) rest).2)) := rfl
      have hbp : badPositions (fun v => valid v && create v) (v :: rest)
          = (if valid v && create v
             then (badPositions (fun v => valid v && create v) rest).map (· + 1)
             else 0 :: (badPositions (fun v => valid v && create v) rest).map (· + 1)) :=
        rfl
      have hlen : (pre ++ [v]).length = pre.length + 1 := by simp
      have htail : ((badPositions (fun v => valid v && create v) rest).map (· + 1)).map
            (fun n : Nat => ((pre.length + n : Nat) : Int))
          = (badPositions (fun v => valid v && create v) rest).map
              (fun n : Nat => (((pre ++ [v]).length + n : Nat) : Int)) := by
        rw [List.map_map]
        apply List.map_congr_left
        intro a _
        simp only [Function.comp_apply]
        rw [hlen]
        omega
      rw [hsa, hrec, hbp]
      by_cases hk : (valid v && create v) = true
      · have hfil : (v :: rest).filter (fun v => valid v && create v)
            = v :: rest.filter (fun v => valid v && create v) :=
          List.filter_cons_of_pos hk
        rw [if_pos hk, if_pos hk, hfil, ← htail]
      · have hkf : ((fun v => valid v && create v) v) = false := by simpa using hk
        have hfil : (v :: rest).filter (fun v => valid v && create v)
            = rest.filter (fun v => valid v && create v) :=
          List.filter_cons_of_neg (by simpa using hk)
        have hvp : v ∉ pre := by
          intro hv
          exact (List.disjoint_of_nodup_append hnd) hv (List.mem_cons_self v rest)
        have hhead : (((pre.length + 0 : Nat) : Int)) = (pre.length : Int) := by
          simp
        rw [if_neg hk, if_neg hk, hfil, List.map_cons, indexOf_append_cons rest hvp,
          hhead, ← htail]

theorem rebuildScan_spec (valid create : Node → Bool) (children : List Node)
    (hnd : children.Nodup) :
    rebuildScan valid create children
      = (children.filter (fun v => valid v && create v),
         (badPositions (fun v => valid v && create v) children).map
           (fun n : Nat => (n : Int))) := by
  have h := rebuildScanAux_spec valid create children [] (by simpa using hnd)
  rw [List.nil_append] at h
  unfold rebuildScan
  rw [h]
  refine congrArg _ ?_
  apply List.map_congr_left
  intro a _
  simp

/-! ### Claim theorems -/

/-- Claim C5: for every index outside `[0, count())`, `getObject` returns a
null result and raises the assertion-style logic-error signal (`jassertfalse`,
not an exception); for every index inside the range it returns the wrapper
stored at that index and raises no signal. -/
theorem getObject_bounds_spec (objects : List Node) (index : Int) :
    ((index < 0 ∨ (objects.length : Int) ≤ index) → getObject objects index = (none, true)) ∧
    (0 ≤ index → index < (objects.length : Int) →
      getObject objects index = (objects[index.toNat]?, false) ∧
      ∃ o, objects[index.toNat]? = some o) := by
  constructor
  · intro h
    unfold getObject
    rw [if_pos h]
  · intro h1 h2
    have hlt : index.toNat < objects.length := by omega
    refine ⟨?_, objects[index.toNat], List.getElem?_eq_getElem hlt⟩
    unfold getObject
    rw [if_neg (by omega)]

/-- Witness for C5: `getObject [7] 1` signals and returns null, while
`getObject [7] 0` returns the stored wrapper with no signal. -/
theorem getObject_bounds_spec_witness :
    getObject [7] 1 = (none, true) ∧
    getObject [7] 0 = ((([7] : List Node))[(0 : Int).toNat]?, false) := by
  exact ⟨(getObject_bounds_spec [7] 1).1 (by decide),
    ((getObject_bounds_spec [7] 0).2 (by decide) (by decide)).1⟩

/-- Claim C9: for wrappers held by the list (nodes among the children), the
comparator is negative exactly when the first wrapper's node has the smaller
tree-child index, positive exactly when greater, and never zero for two
distinct wrappers, because tree-child indexes are unique. -/
theorem compareElements_spec (children : List Node) (first second : Node)
    (h1 : first ∈ children) (h2 : second ∈ children) (hne : first ≠ second) :
    (compareElements children first second < 0 ↔
      indexOf children first < indexOf children second) ∧
    (0 < compareElements children first second ↔
      indexOf children second < indexOf children first) ∧
    compareElements children first second ≠ 0 := by
  refine ⟨by unfold compareElements; omega, by unfold compareElements; omega, fun h0 => ?_⟩
  exact hne (indexOf_inj h1 h2 (by unfold compareElements at h0; omega))

/-- Witness for C9 at children `[5, 8]`. -/
theorem compareElements_spec_witness :
    compareElements [5, 8] 5 8 < 0 ∧ compareElements [5, 8] 5 8 ≠ 0 := by
  have h := compareElements_spec [5, 8] 5 8 (by decide) (by decide) (by decide)
  exact ⟨h.1.mpr (by decide), h.2.2⟩

/-- Claim C10: `freeObjects` empties the typed collection directly and
destroys every wrapper, removing no child from the tree and firing no
object-removed hook. -/
theorem freeObjects_spec (s : ListState) :
    (freeObjects s).1.objects = [] ∧
    (freeObjects s).1.children = s.children ∧
    (∀ o ∈ s.objects, Event.destroyed o ∈ (freeObjects s).2) ∧
    ∀ e ∈ (freeObjects s).2, (∀ o, e ≠ Event.hookRemoved o) ∧ ∀ i, e ≠ Event.treeRemovedAt i := by
  refine ⟨rfl, rfl, ?_, ?_⟩
  · intro o ho
    exact List.mem_map.mpr ⟨o, ho, rfl⟩
  · intro e he
    obtain ⟨o, _, heq⟩ := List.mem_map.mp he
    subst heq
    exact ⟨fun o' h => Event.noConfusion h, fun i h => Event.noConfusion h⟩

/-- Witness for C10 at state `⟨[1], [2]⟩`. -/
theorem freeObjects_spec_witness :
    (freeObjects ⟨[1], [2]⟩).1.objects = [] ∧
    Event.destroyed 2 ∈ (freeObjects ⟨[1], [2]⟩).2 := by
  have h := freeObjects_spec ⟨[1], [2]⟩
  exact ⟨h.1, h.2.2.1 2 (by decide)⟩

/-- Claim C6: `move` is a silent no-op when either index is outside
`[0, count())` or the indexes are equal; `moveUp 0` and
`moveDown (count()-1)` are no-ops; the wrapper overloads are no-ops when the
wrapper is not found by identity lookup.  No events (in particular no
assertion signal) are emitted. -/
theorem move_noop_spec (s : ListState) (oldIndex newIndex : Int) (obj : Node) :
    ((oldIndex < 0 ∨ (objectCount s : Int) ≤ oldIndex ∨ newIndex < 0 ∨
        (objectCount s : Int) ≤ newIndex ∨ oldIndex = newIndex) →
      move s oldIndex newIndex = (s, [])) ∧
    moveUp s 0 = (s, []) ∧
    moveDown s ((objectCount s : Int) - 1) = (s, []) ∧
    (obj ∉ s.objects → moveUpObj s obj = (s, []) ∧ moveDownObj s obj = (s, [])) := by
  refine ⟨?_, ?_, ?_, ?_⟩
  · intro h
    unfold move
    split_ifs with h1 h2 h3
    · rfl
    · rfl
    · rfl
    · exfalso; omega
  · unfold moveUp
    split_ifs with h
    · rfl
    · exfalso; omega
  · unfold moveDown
    split_ifs with h
    · rfl
    · exfalso; omega
  · intro hobj
    rw [moveUpObj, moveDownObj, arrayIndexOf_of_not_mem hobj]
    constructor
    · unfold moveUp
      split_ifs with h
      · rfl
      · exfalso; omega
    · unfold moveDown
      split_ifs with h
      · rfl
      · exfalso; omega

/-- Witness for C6 at state `⟨[1, 2], [1, 2]⟩`. -/
theorem move_noop_spec_witness :
    move ⟨[1, 2], [1, 2]⟩ 5 0 = (⟨[1, 2], [1, 2]⟩, []) ∧
    moveUp ⟨[1, 2], [1, 2]⟩ 0 = (⟨[1, 2], [1, 2]⟩, []) ∧
    moveDown ⟨[1, 2], [1, 2]⟩ ((objectCount ⟨[1, 2], [1, 2]⟩ : Int) - 1)
      = (⟨[1, 2], [1, 2]⟩, []) ∧
    moveUpObj ⟨[1, 2], [1, 2]⟩ 99 = (⟨[1, 2], [1, 2]⟩, []) := by
  have h := move_noop_spec ⟨[1, 2], [1, 2]⟩ 5 0 99
  exact ⟨h.1 (by decide), h.2.1, h.2.2.1, (h.2.2.2 (by decide)).1⟩

/-- Claim C4: a child-removed notification is ignored unless the removal was
directly under this node; otherwise, when a wrapper occupies the removed
index, that wrapper is detached (not destroyed), the object-removed hook runs
exactly once with it, and only then is it destroyed, leaving the collection
one element shorter. -/
theorem valueTreeChildRemoved_spec (s : ListState) (index : Int) :
    valueTreeChildRemoved s false index = (s.objects, []) ∧
    (∀ o, (getObject s.objects index).1 = some o → s.objects.Nodup →
      (valueTreeChildRemoved s true index).1 = s.objects.eraseIdx index.toNat ∧
      (valueTreeChildRemoved s true index).2 =
        [Event.detached o, Event.hookRemoved o, Event.destroyed o] ∧
      (valueTreeChildRemoved s true index).1.length + 1 = s.objects.length ∧
      s.objects[index.toNat]? = some o) := by
  constructor
  · rfl
  · intro o ho hnd
    have hrange : ¬(index < 0 ∨ (s.objects.length : Int) ≤ index) := by
      intro hr
      unfold getObject at ho
      rw [if_pos hr] at ho
      simp at ho
    have hlt : index.toNat < s.objects.length := by omega
    have hgo : s.objects[index.toNat]? = some o := by
      unfold getObject at ho
      rw [if_neg hrange] at ho
      exact ho
    have hoe : s.objects[index.toNat] = o := by
      rw [List.getElem?_eq_getElem hlt] at hgo
      exact Option.some.inj hgo
    have hmain : valueTreeChildRemoved s true index
        = (s.objects.erase o,
           [Event.detached o, Event.hookRemoved o, Event.destroyed o]) := by
      have hget : getObject s.objects index = (some o, false) := by
        unfold getObject
        rw [if_neg hrange, hgo]
      unfold valueTreeChildRemoved
      rw [hget]
      rfl
    have herase : s.objects.erase o = s.objects.eraseIdx index.toNat := by
      rw [← hoe]
      exact hnd.erase_getElem index.toNat hlt
    refine ⟨by rw [hmain, herase], by rw [hmain], ?_, hgo⟩
    rw [hmain]
    simp only [herase, List.length_eraseIdx]
    rw [if_pos hlt]
    omega

/-- Witness for C4: removing index 1 from collection `[4, 6]` detaches wrapper
6, fires the hook once, destroys it, and leaves `[4]`. -/
theorem valueTreeChildRemoved_spec_witness :
    (valueTreeChildRemoved ⟨[1], [4, 6]⟩ true 1).1 = [4] ∧
    (valueTreeChildRemoved ⟨[1], [4, 6]⟩ true 1).2 =
      [Event.detached 6, Event.hookRemoved 6, Event.destroyed 6] := by
  have h := (valueTreeChildRemoved_spec ⟨[1], [4, 6]⟩ 1).2 6 (by decide) (by decide)
  exact ⟨h.1.trans (by decide), h.2.1⟩

/-- Claim C8 counterexample: a second invocation of `rebuildObjects` on the
same instance does not always trigger the precondition failure — when the
first rebuild left the collection empty (here a tree with no children), the
second call passes `jassert(_objects.size() == 0)` silently, contradicting
the claim that a second invocation is rejected. -/
theorem rebuild_second_call_without_assert :
    (rebuildObjects (fun _ => true) (fun _ => true)
        ((rebuildObjects (fun _ => true) (fun _ => true) ⟨[], []⟩ true).state)
        true).precondViolated = false := by
  rfl

/-- Claim C8 (amended): `rebuildObjects` raises its precondition signal
exactly when invoked on a non-empty collection: a first rebuild on a fresh
list never raises it, and a second rebuild raises it precisely when the first
left wrappers in the collection. -/
theorem rebuild_precondViolated_iff (valid create : Node → Bool) (children : List Node)
    (del1 del2 : Bool) :
    (rebuildObjects valid create ⟨children, []⟩ del1).precondViolated = false ∧
    ((rebuildObjects valid create
        (rebuildObjects valid create ⟨children, []⟩ del1).state del2).precondViolated = true
      ↔ (rebuildObjects valid create ⟨children, []⟩ del1).state.objects ≠ []) := by
  have key : ∀ (s : ListState) (del : Bool),
      (rebuildObjects valid create s del).precondViolated = !s.objects.isEmpty := by
    intro s del
    unfold rebuildObjects
    cases del <;> rfl
  constructor
  · rw [key]
    rfl
  · rw [key]
    simp [List.isEmpty_iff]

/-- Claim C1: the order invariant fails on the code.  Starting from an empty
rebuilt list, externally adding an invalid node 10, then a valid node 20, and
then removing node 20 through the list's own `removeObject` leaves the
wrapper for 20 in the typed collection while the tree children are `[10]`:
the removal handler looked up collection index 1 (the removed child's tree
index), which is out of range for the one-element collection, so no wrapper
was removed (only `jassertfalse` fired).  The resulting collection `[20]`
differs from the tree's child order restricted to the represented nodes,
which is empty. -/
theorem orderInvariant_failing_trace :
    (externAppendChild (fun v => v == 20) (fun _ => true) ⟨[], []⟩ 10).1 = ⟨[10], []⟩ ∧
    (externAppendChild (fun v => v == 20) (fun _ => true) ⟨[10], []⟩ 20).1
      = ⟨[10, 20], [20]⟩ ∧
    (removeObject ⟨[10, 20], [20]⟩ 20).1 = ⟨[10], [20]⟩ ∧
    (removeObject ⟨[10, 20], [20]⟩ 20).2 = [Event.treeRemovedAt 1, Event.assertionFailed] ∧
    ¬((⟨[10], [20]⟩ : ListState).objects
        = (⟨[10], [20]⟩ : ListState).children.filter
            (fun v => (⟨[10], [20]⟩ : ListState).objects.contains v)) := by
  exact ⟨rfl, rfl, rfl, rfl, by decide⟩

/-- Claim C2: for every starting tree without duplicate nodes,
`rebuildObjects(deleteInvalidChildren)` scans the children in order,
appending a wrapper for each child that passes the validity predicate and
whose factory returns non-null, and recording the tree index of every other
child (the ascending positions of the non-kept children); with
`deleteInvalidChildren = true` the recorded indexes are removed from the tree
in strictly descending order and only the wrapped children remain, while with
`false` the tree is untouched and the non-kept children are simply absent
from the typed collection. -/
theorem rebuildObjects_spec (valid create : Node → Bool) (children : List Node)
    (hnd : children.Nodup) :
    (rebuildScan valid create children).1
      = children.filter (fun v => valid v && create v) ∧
    (rebuildScan valid create children).2
      = (badPositions (fun v => valid v && create v) children).map
          (fun n : Nat => (n : Int)) ∧
    (rebuildObjects valid create ⟨children, []⟩ true).state.children
      = children.filter (fun v => valid v && create v) ∧
    removalIdxs (rebuildObjects valid create ⟨children, []⟩ true).events
      = ((rebuildScan valid create children).2).reverse ∧
    (removalIdxs (rebuildObjects valid create ⟨children, []⟩ true).events).Pairwise
      (· > ·) ∧
    (rebuildObjects valid create ⟨children, []⟩ false).state.children = children ∧
    (rebuildObjects valid create ⟨children, []⟩ false).state.objects
      = children.filter (fun v => valid v && create v) ∧
    (∀ v ∈ children, (valid v && create v) = false →
      v ∈ (rebuildObjects valid create ⟨children, []⟩ false).state.children ∧
      v ∉ (rebuildObjects valid create ⟨children, []⟩ false).state.objects) := by
  have hscan := rebuildScan_spec valid create children hnd
  have hscan1 : (rebuildScan valid create children).1
      = children.filter (fun v => valid v && create v) := by
    rw [hscan]
  have hscan2 : (rebuildScan valid create children).2
      = (badPositions (fun v => valid v && create v) children).map
          (fun n : Nat => (n : Int)) := by
    rw [hscan]
  have hpw : ((rebuildScan valid create children).2).Pairwise (· < ·) := by
    rw [hscan2]
    refine List.pairwise_map.mpr
      (((badPositions_pairwise (fun v => valid v && create v) children)).imp ?_)
    intro a b h
    exact_mod_cast h
  have hsort : sortDesc (rebuildScan valid create children).2
      = ((rebuildScan valid create children).2).reverse := sortDesc_of_ascending hpw
  have hmain1 : (removeRecorded ⟨children, (rebuildScan valid create children).1⟩
        (sortDesc (rebuildScan valid create children).2)).1.children
      = childrenAfter children (sortDesc (rebuildScan valid create children).2) :=
    (removeRecorded_children_events _ _).1
  have hmain2 : removalIdxs (removeRecorded ⟨children, (rebuildScan valid create children).1⟩
        (sortDesc (rebuildScan valid create children).2)).2
      = hitIdxs children (sortDesc (rebuildScan valid create children).2) :=
    (removeRecorded_children_events _ _).2
  have hpure := childrenAfter_badPositions (fun v => valid v && create v) children
  have hstate : (rebuildObjects valid create ⟨children, []⟩ true).state
      = (removeRecorded ⟨children, (rebuildScan valid create children).1⟩
          (sortDesc (rebuildScan valid create children).2)).1 := rfl
  have hevts : (rebuildObjects valid create ⟨children, []⟩ true).events
      = (removeRecorded ⟨children, (rebuildScan valid create children).1⟩
          (sortDesc (rebuildScan valid create children).2)).2 := rfl
  have hchildrenT : (rebuildObjects valid create ⟨children, []⟩ true).state.children
      = children.filter (fun v => valid v && create v) := by
    rw [hstate, hmain1, hsort, hscan2]
    exact hpure.1
  have hremT : removalIdxs (rebuildObjects valid create ⟨children, []⟩ true).events
      = ((rebuildScan valid create children).2).reverse := by
    rw [hevts, hmain2, hsort, hscan2]
    rw [hpure.2, ← hscan2]
  refine ⟨hscan1, hscan2, hchildrenT, hremT, ?_, rfl, hscan1, ?_⟩
  · rw [hremT]
    exact (List.pairwise_reverse).mpr hpw
  · intro v hv hkv
    refine ⟨hv, fun hmem => ?_⟩
    have : v ∈ children.filter (fun v => valid v && create v) := by
      rw [← hscan1]
      exact hmem
    rw [List.mem_filter] at this
    rw [hkv] at this
    exact Bool.false_ne_true this.2

/-- Witness for C2 at tree `[10, 3, 7, 4]` with odd nodes valid: the scan
keeps `[3, 7]` and records indexes `[0, 3]`; deletion removes tree indexes 3
then 0, leaving `[3, 7]`; without deletion the tree is untouched and the even
nodes are absent from the collection. -/
theorem rebuildObjects_spec_witness :
    (rebuildScan (fun v => v % 2 == 1) (fun _ => true) [10, 3, 7, 4]).1 = [3, 7] ∧
    (rebuildScan (fun v => v % 2 == 1) (fun _ => true) [10, 3, 7, 4]).2 = [0, 3] ∧
    (rebuildObjects (fun v => v % 2 == 1) (fun _ => true)
      ⟨[10, 3, 7, 4], []⟩ true).state.children = [3, 7] ∧
    removalIdxs (rebuildObjects (fun v => v % 2 == 1) (fun _ => true)
      ⟨[10, 3, 7, 4], []⟩ true).events = [3, 0] ∧
    (rebuildObjects (fun v => v % 2 == 1) (fun _ => true)
      ⟨[10, 3, 7, 4], []⟩ false).state.children = [10, 3, 7, 4] ∧
    (rebuildObjects (fun v => v % 2 == 1) (fun _ => true)
      ⟨[10, 3, 7, 4], []⟩ false).state.objects = [3, 7] := by
  have h := rebuildObjects_spec (fun v => v % 2 == 1) (fun _ => true) [10, 3, 7, 4]
    (by decide)
  exact ⟨h.1.trans (by decide), (h.2.1).trans (by decide), (h.2.2.1).trans (by decide),
    (h.2.2.2.1).trans (by decide), h.2.2.2.2.2.1, (h.2.2.2.2.2.2.1).trans (by decide)⟩

/-- Claim C3: a child-added notification is ignored (collection unchanged, no
event) when the node's parent is not this node or the validity predicate
fails; otherwise, when the factory produces a wrapper, the wrapper is
appended at the end if the node occupies the last tree position and otherwise
inserted at the position preserving tree-index order (the result is a
permutation of the old collection plus the new wrapper and stays sorted by
tree index), and the object-added hook fires exactly once with the new
wrapper.  When the factory fails after validation, only the fatal-assert
signal fires. -/
theorem valueTreeChildAdded_spec (valid create : Node → Bool) (s : ListState) (v : Node) :
    (¬(valid v = true ∧ v ∈ s.children) →
      valueTreeChildAdded valid create s v = (s.objects, [])) ∧
    (valid v = true → v ∈ s.children →
      (create v = true →
        (valueTreeChildAdded valid create s v).2 = [Event.hookAdded v] ∧
        (indexOf s.children v = (s.children.length : Int) - 1 →
          (valueTreeChildAdded valid create s v).1 = s.objects ++ [v]) ∧
        (indexOf s.children v ≠ (s.children.length : Int) - 1 →
          (valueTreeChildAdded valid create s v).1 = addSorted s.children s.objects v ∧
          ((valueTreeChildAdded valid create s v).1).Perm (v :: s.objects) ∧
          (v ∉ s.objects → SortedByTree s.children s.objects →
            SortedByTree s.children (valueTreeChildAdded valid create s v).1))) ∧
      (create v = false →
        (valueTreeChildAdded valid create s v).1 = s.objects ∧
        (valueTreeChildAdded valid create s v).2 = [Event.assertionFailed])) := by
  constructor
  · intro hguard
    have hfalse : isChildTree valid s v = false := by
      unfold isChildTree
      rw [Bool.and_eq_false_iff]
      by_cases hval : valid v = true
      · refine Or.inr ?_
        by_cases hcon : s.children.contains v = true
        · exact absurd ⟨hval, by simpa using hcon⟩ hguard
        · simpa using hcon
      · exact Or.inl (by simpa using hval)
    unfold valueTreeChildAdded
    rw [hfalse]
    rfl
  · intro hval hmem
    have htrue : isChildTree valid s v = true := by
      unfold isChildTree
      rw [Bool.and_eq_true]
      exact ⟨hval, by simpa using hmem⟩
    have hidx0 : 0 ≤ indexOf s.children v := (indexOf_spec_of_mem hmem).1
    have hnoassert : (if indexOf s.children v < 0 then [Event.assertionFailed] else [])
        = ([] : List Event) := by
      rw [if_neg (by omega)]
    constructor
    · intro hc
      have heval : valueTreeChildAdded valid create s v =
          ((if indexOf s.children v = (s.children.length : Int) - 1
            then s.objects ++ [v]
            else addSorted s.children s.objects v), [Event.hookAdded v]) := by
        unfold valueTreeChildAdded
        rw [htrue, hc, hnoassert]
        rfl
      refine ⟨by rw [heval], ?_, ?_⟩
      · intro hlast
        rw [heval, if_pos hlast]
      · intro hnotlast
        rw [heval, if_neg hnotlast]
        refine ⟨rfl, addSorted_perm s.children v s.objects, ?_⟩
        intro hvo hsorted
        exact addSorted_sorted hmem hvo hsorted
    · intro hc
      unfold valueTreeChildAdded
      rw [htrue, hc, hnoassert]
      exact ⟨rfl, rfl⟩

/-- Witness for C3: adding valid node 5, which sits at tree position 1 of
`[3, 5, 9]` (not last), inserts its wrapper between 3 and 9 and fires the
hook once. -/
theorem valueTreeChildAdded_spec_witness :
    (valueTreeChildAdded (fun _ => true) (fun _ => true) ⟨[3, 5, 9], [3, 9]⟩ 5).2
      = [Event.hookAdded 5] ∧
    (valueTreeChildAdded (fun _ => true) (fun _ => true) ⟨[3, 5, 9], [3, 9]⟩ 5).1
      = addSorted [3, 5, 9] [3, 9] 5 ∧
    ((valueTreeChildAdded (fun _ => true) (fun _ => true) ⟨[3, 5, 9], [3, 9]⟩ 5).1).Perm
      (5 :: [3, 9]) ∧
    SortedByTree [3, 5, 9]
      (valueTreeChildAdded (fun _ => true) (fun _ => true) ⟨[3, 5, 9], [3, 9]⟩ 5).1 := by
  have h := ((valueTreeChildAdded_spec (fun _ => true) (fun _ => true)
      ⟨[3, 5, 9], [3, 9]⟩ 5).2 rfl (by decide) |>.1 rfl)
  have h2 := h.2.2 (by decide)
  exact ⟨h.1, h2.1, h2.2.1, h2.2.2 (by decide)
    (by unfold SortedByTree compareElements indexOf; decide)⟩

/-- Claim C7 counterexample: on the reachable state produced by
`rebuildObjects(deleteInvalidChildren=false)` over tree children `[0, 1]`
with only node 1 valid, `clear()` does not empty the collection: the removal
notification for node 1 carries tree index 1, `getObject(1)` is out of range
for the one-element collection, nothing is detached, and the loop makes no
progress (the C++ `while` never terminates; the fuel-bounded model returns
with the wrapper still present), so `count()` is not 0 after `clear`. -/
theorem clear_stalls_on_unrepresented_child :
    (rebuildObjects (fun v => v == 1) (fun _ => true) ⟨[0, 1], []⟩ false).state
      = ⟨[0, 1], [1]⟩ ∧
    (removeObject ⟨[0, 1], [1]⟩ 1).1 = ⟨[0], [1]⟩ ∧
    (clear ⟨[0, 1], [1]⟩).1.objects = [1] ∧
    objectCount (clear ⟨[0, 1], [1]⟩).1 ≠ 0 := by
  exact ⟨rfl, rfl, rfl, by decide⟩

/-- Claim C7 (amended): for every list state in which the typed collection
mirrors the tree's children one-to-one in order (as after
`rebuild(deleteInvalidNodes=true)`), `clear()` empties the collection by
repeated index-0 removals whose notifications each shrink it by one; `count()`
is 0 afterwards and the destructor's non-empty precondition cannot fire. -/
theorem clear_empties_when_fully_represented (s : ListState) (h : s.objects = s.children) :
    objectCount (clear s).1 = 0 ∧ (clear s).1.objects = [] ∧
    destructorAsserts (clear s).1 = false := by
  obtain ⟨c, o⟩ := s
  simp only at h
  rw [h]
  have hc : (clear ⟨c, c⟩).1 = ⟨[], []⟩ := clearSteps_mirror c
  rw [hc]
  exact ⟨rfl, rfl, rfl⟩

/-- Witness for the amended C7 at state `⟨[4, 5], [4, 5]⟩`. -/
theorem clear_empties_when_fully_represented_witness :
    objectCount (clear ⟨[4, 5], [4, 5]⟩).1 = 0 ∧ (clear ⟨[4, 5], [4, 5]⟩).1.objects = [] ∧
    destructorAsserts (clear ⟨[4, 5], [4, 5]⟩).1 = false :=
  clear_empties_when_fully_represented ⟨[4, 5], [4, 5]⟩ rfl

end Cello

